import Mathlib

/-!
# Verification of the rema repository-orchestration core

Shallow embedding of `src/config.rs` and `src/main.rs` of the `rema`
tool: global-configuration validation, repository discovery,
per-repository configuration resolution, the pull / update / clean
phases, and the command-execution loops.

External collaborators (the OS, the TOML deserializer's field plumbing,
shell expansion, spawned processes) are modelled as explicit parameters
or as input data; control flow and data flow are translated statement by
statement from the Rust source.  A Rust `panic!`/`expect` is modelled as
an explicit `panic`/`none` outcome that aborts the enclosing phase.
-/

namespace Rema

/-! ## Data model (from `src/config.rs`) -/

/-- Rust `struct Repo \x7b name: String \x7d` — value of a `[repo.<key>]` table in the
global config file. -/
structure Repo where
  name : String
deriving Repr, DecidableEq

/-- Rust `struct RemaConfigSe` — the raw deserialized global config file.
`Option` fields are optional keys; `repos` is the map of `[repo.<key>]`
tables (represented as an association list keyed by the table key). -/
structure RemaConfigSe where
  base_dir : String
  ignore : Option (List String)
  autoclean : Option Bool
  autoupdate : Option Bool
  repos : List (String × Repo)
deriving Repr, DecidableEq

/-- Rust `struct RemaConfig` — the validated global configuration. -/
structure RemaConfig where
  base_dir : String
  ignore : List String
  autoclean : Bool
  autoupdate : Bool
deriving Repr, DecidableEq

/-- The `impl From<RemaConfigSe> for RemaConfig` conversion: shell-expand `base_dir`,
default the optional fields, and drop the `repos` tables.  `expand`
stands for the external `shellexpand::full` collaborator. -/
def toRemaConfig (expand : String → String) (rcs : RemaConfigSe) : RemaConfig :=
  { base_dir := expand rcs.base_dir
    ignore := rcs.ignore.getD []
    autoclean := rcs.autoclean.getD false
    autoupdate := rcs.autoupdate.getD false }

/-- Rust `enum ConfigError` — the fatal startup errors of `RemaConfig::new`. -/
inductive ConfigError where
  | baseDirRelative (p : String)
  | baseDirNotDir (p : String)
  | file
  | toml
deriving Repr, DecidableEq

/-- Function `RemaConfig::new`: read the config file (`readResult`, `none` when
`read_to_string` fails), parse it (`parse`, the TOML collaborator),
convert, then validate that `base_dir` is absolute and a directory
(`isRelative`, `isDir` stand for the filesystem queries). -/
def remaConfigNew (expand : String → String) (isRelative isDir : String → Bool)
    (parse : String → Except String RemaConfigSe)
    (readResult : Option String) : Except ConfigError RemaConfig :=
  match readResult with
  | none => .error .file
  | some buf =>
    match parse buf with
    | .error _ => .error .toml
    | .ok rcs =>
      let config := toRemaConfig expand rcs
      if isRelative config.base_dir then .error (.baseDirRelative config.base_dir)
      else if !isDir config.base_dir then .error (.baseDirNotDir config.base_dir)
      else .ok config

/-! ## Repository discovery (`impl IntoIterator for RemaConfig`) -/

/-- One entry of `std::fs::read_dir(base_dir)`.  `readOk` is whether the
entry itself was `Ok`; `isFile` is `entry.path().is_file()`;
`opensAsRepo` is whether `Repository::open(entry.path())` succeeds. -/
structure DirEntry where
  name : String
  readOk : Bool
  isFile : Bool
  opensAsRepo : Bool
deriving Repr, DecidableEq

/-- Function `RemaConfig::into_iter`: filter the directory entries of `base_dir`
down to the repositories to process, returning their names.  Mirrors the
source `filter_map`: an `Err` entry is dropped; a regular file or a name
in `ignore` is dropped; anything that fails `Repository::open` is
dropped. -/
def discover (cfg : RemaConfig) (entries : List DirEntry) : List String :=
  entries.filterMap fun e =>
    if !e.readOk then none
    else if e.isFile || cfg.ignore.contains e.name then none
    else if e.opensAsRepo then some e.name else none

/-! ## Per-repository configuration (`BuildConfigSe`, `BuildConfig`) -/

/-- Rust `struct BuildConfigSe` — the raw deserialized per-repository
`rema.toml`.  `name` and `build` are required fields; the `Option`
fields are optional keys. -/
structure BuildConfigSe where
  name : String
  build : List String
  clean : Option (List String)
  autoclean : Option Bool
  autoupdate : Option Bool
deriving Repr, DecidableEq

/-- The keys actually present in a per-repository `rema.toml` file, before
deserialization: `none` means the key is absent from the file. -/
structure RepoFileKeys where
  name : Option String
  build : Option (List String)
  clean : Option (List String)
  autoclean : Option Bool
  autoupdate : Option Bool
deriving Repr, DecidableEq

/-- Field resolution of `#[derive(Deserialize)] struct BuildConfigSe`
over the keys present in the file: a field declared `String` or
`Vec<String>` is required (its absence is a deserialization error), a
field declared `Option<_>` is optional. -/
def deserializeBuildConfigSe (f : RepoFileKeys) : Except String BuildConfigSe :=
  match f.name with
  | none => .error "missing field name"
  | some n =>
    match f.build with
    | none => .error "missing field build"
    | some b => .ok ⟨n, b, f.clean, f.autoclean, f.autoupdate⟩

/-- Rust `struct BuildConfig` — resolved per-repository settings (the `path`
reference is represented by the path string). -/
structure BuildConfig where
  name : String
  path : String
  build : List String
  clean : List String
  autoclean : Bool
  autoupdate : Bool
deriving Repr, DecidableEq

/-- The `impl From<(BuildConfigSe, &Path)> for BuildConfig` conversion: keep `name`,
shell-expand each build/clean line, default the optional fields. -/
def buildConfigOfSe (expand : String → String) (bcs : BuildConfigSe)
    (p : String) : BuildConfig :=
  { name := bcs.name
    path := p
    build := bcs.build.map expand
    clean := (bcs.clean.getD []).map expand
    autoclean := bcs.autoclean.getD false
    autoupdate := bcs.autoupdate.getD false }

/-- Function `BuildConfig::new(p)` — the default configuration used when no
`rema.toml` exists: empty command lists, flags false, `name` the path
string itself. -/
def BuildConfig.new (p : String) : BuildConfig :=
  { name := p, path := p, build := [], clean := [], autoclean := false,
    autoupdate := false }

/-- Messages `BuildConfig::try_from_repo` prints. -/
inductive LogMsg where
  | foundConfig (path : String)
  | configDump
  | parseError (e : String)
deriving Repr, DecidableEq

/-- The state of a repository's `rema.toml` file: `none` when
`read_to_string` fails (no file), otherwise the result of the TOML
deserialization of its contents. -/
abbrev RepoFile := Option (Except String BuildConfigSe)

/-- Function `BuildConfig::try_from_repo`, with its printed messages: a missing
file yields the default config; a file that parses yields the converted
config; a parse failure prints the error and yields `None`. -/
def tryFromRepoLogged (expand : String → String) (p : String)
    (file : RepoFile) : Option BuildConfig × List LogMsg :=
  match file with
  | none => (some (BuildConfig.new p), [])
  | some (.ok c) =>
    (some (buildConfigOfSe expand c p), [.foundConfig (p ++ "rema.toml"), .configDump])
  | some (.error e) => (none, [.foundConfig (p ++ "rema.toml"), .parseError e])

/-- Function `BuildConfig::try_from_repo`, result only. -/
def tryFromRepo (expand : String → String) (p : String)
    (file : RepoFile) : Option BuildConfig :=
  (tryFromRepoLogged expand p file).1

/-! ## Command execution (`BuildConfig::run_line_as_cmd`, `build`, `clean`) -/

/-- What the OS does when asked to spawn a program: the spawn itself can
fail (`Command::spawn` returns `Err`), or the process runs and exits
with a status code. -/
inductive CmdResult where
  | spawnFail
  | exited (code : Nat)
deriving Repr, DecidableEq

/-- The OS as seen by `run_line_as_cmd`: program name and argument list
to the result of spawning and waiting. -/
abbrev Exec := String → List String → CmdResult

/-- Rust `str::split_whitespace` on a character list: maximal runs of
non-whitespace characters, with whitespace runs discarded.  `acc` holds
the current word, reversed. -/
def splitWSAux : List Char → List Char → List (List Char)
  | [], acc => if acc.isEmpty then [] else [acc.reverse]
  | c :: cs, acc =>
    if c.isWhitespace then
      if acc.isEmpty then splitWSAux cs [] else acc.reverse :: splitWSAux cs []
    else splitWSAux cs (c :: acc)

/-- The source expression `line.split_whitespace().collect::<Vec<_>>()`. -/
def splitWhitespace (line : String) : List (List Char) :=
  splitWSAux line.data []

/-- How far a command sequence got: every line processed, or a `panic!`
(from `split_first().unwrap()` on an empty split, or from
`spawn().expect(..)` on a spawn failure) that aborts the process. -/
inductive ExecOutcome where
  | ok
  | panicked
deriving Repr, DecidableEq

/-- A run of a command sequence: the lines whose command was actually
spawned and waited on, in order, and whether the run completed or
panicked. -/
structure Trace where
  invoked : List String
  outcome : ExecOutcome
deriving Repr, DecidableEq

/-- The loop of `BuildConfig::build` / `clean` over a list of command
lines, each processed by `run_line_as_cmd`: split the line on
whitespace; `split_first().unwrap()` panics when the split is empty;
`spawn().expect` panics when the spawn fails; otherwise the process is
waited on and the loop continues — the exit status returned by `wait()`
is never examined. -/
def runSeq (exec : Exec) : List String → Trace
  | [] => ⟨[], .ok⟩
  | line :: rest =>
    match splitWhitespace line with
    | [] => ⟨[], .panicked⟩
    | cmd :: args =>
      match exec cmd.asString (args.map List.asString) with
      | .spawnFail => ⟨[], .panicked⟩
      | .exited _ =>
        let t := runSeq exec rest
        ⟨line :: t.invoked, t.outcome⟩

/-- Function `BuildConfig::build`: run every `build` line, then, if `autoclean`,
run `clean`.  A panic aborts everything after it. -/
def buildRun (exec : Exec) (cfg : BuildConfig) : Trace :=
  let t := runSeq exec cfg.build
  match t.outcome with
  | .panicked => t
  | .ok =>
    if cfg.autoclean then
      let c := runSeq exec cfg.clean
      ⟨t.invoked ++ c.invoked, c.outcome⟩
    else t

/-- Function `BuildConfig::clean`: run every `clean` line. -/
def cleanRun (exec : Exec) (cfg : BuildConfig) : Trace :=
  runSeq exec cfg.clean

/-! ## The pull operation (`BuildConfig::pull`) -/

/-- The fixed "nothing changed" marker, `check_phrase` in the source. -/
def checkPhrase : List Char := "Already up to date.".data

/-- Function `BuildConfig::pull`, given the captured output of `git pull`
(`stdout`, as a character sequence, and `exitSuccess` for
`output.status.success()`).  The source first slices
`output.stdout[..check_phrase.len()]`, which panics when the output is
shorter than the marker (`none`).  With `autoupdate` set it invokes
`build` and returns `false`; a panic inside that build also aborts
(`none`).  Otherwise it returns whether the pull succeeded and the
sliced prefix differs from the marker.  The result is the returned
classification (`true` = needs update) paired with whether `build` was
invoked during the pull. -/
def pull (exec : Exec) (cfg : BuildConfig) (stdout : List Char)
    (exitSuccess : Bool) : Option (Bool × Bool) :=
  if stdout.length < checkPhrase.length then none
  else
    let check := stdout.take checkPhrase.length
    if cfg.autoupdate then
      if (buildRun exec cfg).outcome = .panicked then none
      else some (false, true)
    else some (exitSuccess && !(check == checkPhrase), false)

/-! ## Phase orchestration (`src/main.rs`) -/

/-- Everything the pull phase needs to know about one discovered
repository: its path, the state of its `rema.toml`, and the captured
result of running `git pull` in it. -/
structure RepoEntry where
  path : String
  file : RepoFile
  stdout : List Char
  exitSuccess : Bool

/-- The `pull` subcommand's `filter_map` over the discovered
repositories: resolve each config (`try_from_repo`, skipping on
`None`), run `pull`, and collect the paths classified as needing an
update — the PendingSet that is then serialized.  The second component
records which repositories' build sequences ran during the phase; a
panic anywhere aborts the whole phase (`none`, nothing serialized). -/
def pullPhase (exec : Exec) (expand : String → String) :
    List RepoEntry → Option (List String × List String)
  | [] => some ([], [])
  | e :: rest =>
    match tryFromRepo expand e.path e.file with
    | none => pullPhase exec expand rest
    | some cfg =>
      match pull exec cfg e.stdout e.exitSuccess with
      | none => none
      | some (needs, built) =>
        (pullPhase exec expand rest).map fun (pend, blt) =>
          ((if needs then e.path :: pend else pend),
           (if built then e.path :: blt else blt))

/-- The loop shared by the `update` and `clean` subcommands: for each
repository, resolve its config with the `get_config!` macro (a `None`
resolution `continue`s to the next repository) and run `act` on it; a
panic in `act` aborts the remaining repositories. -/
def runPhase (expand : String → String) (act : BuildConfig → Trace) :
    List (String × RepoFile) → List (String × Trace)
  | [] => []
  | (p, f) :: rest =>
    match tryFromRepo expand p f with
    | none => runPhase expand act rest
    | some cfg =>
      let t := act cfg
      if t.outcome = .panicked then [(p, t)]
      else (p, t) :: runPhase expand act rest

/-- The subcommands `main` dispatches on. -/
inductive Subcommand where
  | pull
  | update
  | clean
  | noCommand
deriving Repr, DecidableEq

/-- What a run of `main` amounts to: an abort with a configuration error
before any orchestration (the `panic!` on `RemaConfig::new` failing), or
the result of one of the three phases, or the "no command" notice.  The
`fatal` outcome carries nothing but the error: no repository has been
discovered or processed. -/
inductive MainOutcome where
  | fatal (e : ConfigError)
  | pullRan (result : Option (List String × List String))
  | updateRan (result : List (String × Trace))
  | cleanRan (result : List (String × Trace))
  | noCommandMsg

/-- The environment `main` runs in: the global config file and the
filesystem queries consumed by `RemaConfig::new`, the base directory
listing, each repository's `rema.toml` state and captured `git pull`
result, the persisted PendingSet paths the `update` subcommand reads
(`pending`), whether each of those paths still opens as a repository
(`opens`), and the OS command executor. -/
structure World where
  readResult : Option String
  parse : String → Except String RemaConfigSe
  expand : String → String
  isRelative : String → Bool
  isDir : String → Bool
  entries : List DirEntry
  repoFile : String → RepoFile
  gitStdout : String → List Char
  gitSuccess : String → Bool
  pending : List String
  opens : String → Bool
  exec : Exec

/-- Function `main`: validate the global configuration (a failure is a
`panic!`, modelled as `fatal`, issued before any repository is touched),
then dispatch on the subcommand: `pull` runs the pull phase over the
discovered repositories, `update` runs the build loop over the persisted
PendingSet paths that still open as repositories, `clean` runs the clean
loop over the discovered repositories. -/
def mainRun (w : World) (cmd : Subcommand) : MainOutcome :=
  match remaConfigNew w.expand w.isRelative w.isDir w.parse w.readResult with
  | .error e => .fatal e
  | .ok cfg =>
    match cmd with
    | .pull =>
      .pullRan (pullPhase w.exec w.expand
        ((discover cfg w.entries).map fun n =>
          ⟨n, w.repoFile n, w.gitStdout n, w.gitSuccess n⟩))
    | .update =>
      .updateRan (runPhase w.expand (buildRun w.exec)
        ((w.pending.filter w.opens).map fun p => (p, w.repoFile p)))
    | .clean =>
      .cleanRan (runPhase w.expand (cleanRun w.exec)
        ((discover cfg w.entries).map fun n => (n, w.repoFile n)))
    | .noCommand => .noCommandMsg

/-! ## Concrete fixtures used by the witnesses and counterexamples -/

/-- An executor on which every spawn succeeds with exit status 0. -/
def execAllOk : Exec := fun _ _ => .exited 0

/-- A captured pull output of exactly the marker's length that does not
begin with the marker. -/
def stdoutX : List Char := List.replicate 19 'X'

/-- A repository configuration with `autoupdate = true` and no commands. -/
def cfgAU : BuildConfig :=
  { name := "r", path := "r", build := [], clean := [], autoclean := false,
    autoupdate := true }

/-- The default repository configuration at path `r`
(`autoupdate = false`). -/
def cfgNoAU : BuildConfig := BuildConfig.new "r"

/-- A parsed `rema.toml` setting `autoupdate = true`. -/
def seA : BuildConfigSe := ⟨"a", [], none, none, some true⟩

/-- A repository at path `a` whose `rema.toml` sets `autoupdate = true`,
with a successful pull reporting new content. -/
def eTrue : RepoEntry := ⟨"a", some (.ok seA), stdoutX, true⟩

/-- A repository at path `b` with no `rema.toml` (so `autoupdate` is
false), with a successful pull reporting new content. -/
def eFalse : RepoEntry := ⟨"b", none, stdoutX, true⟩

/-- A repository configuration with two build lines and `autoclean`,
whose first build command will exit non-zero. -/
def cfgD : BuildConfig :=
  { name := "d", path := "d", build := ["false", "touch second"],
    clean := ["rm out"], autoclean := true, autoupdate := false }

/-- An executor on which the program `false` exits with status 1 and
every other spawn exits with status 0. -/
def execD : Exec := fun c _ => if c = "false" then .exited 1 else .exited 0

/-- A global config whose only `[repo.<key>]` table is keyed `a`. -/
def seC4 : RemaConfigSe := ⟨"/base", none, none, none, [("a", ⟨"a"⟩)]⟩

/-- Two base-directory children, `a` and `b`, both directories that open
as repositories. -/
def entriesC4 : List DirEntry := [⟨"a", true, false, true⟩, ⟨"b", true, false, true⟩]

/-- A repository configuration whose build and clean lists each hold one
whitespace-only command line. -/
def cfgWS : BuildConfig :=
  { name := "w", path := "w", build := ["  "], clean := [" "],
    autoclean := false, autoupdate := false }

/-- Per-repository file keys providing `name` and `build` and omitting
the optional keys. -/
def fileKeysOk : RepoFileKeys := ⟨some "proj", some ["make"], none, none, none⟩

/-- A parsed global config with an absolute, existing base directory. -/
def seGood : RemaConfigSe := ⟨"/b", none, none, none, []⟩

/-- A world whose global config file cannot be read. -/
def worldBad : World :=
  { readResult := none, parse := fun _ => .error "unused", expand := id,
    isRelative := fun _ => false, isDir := fun _ => true, entries := [],
    repoFile := fun _ => none, gitStdout := fun _ => stdoutX,
    gitSuccess := fun _ => true, pending := [], opens := fun _ => true,
    exec := execAllOk }

/-- A world whose global config file reads and parses fine and whose
base directory is absolute and exists. -/
def worldGood : World :=
  { readResult := some "", parse := fun _ => .ok seGood, expand := id,
    isRelative := fun _ => false, isDir := fun _ => true, entries := [],
    repoFile := fun _ => none, gitStdout := fun _ => stdoutX,
    gitSuccess := fun _ => true, pending := [], opens := fun _ => true,
    exec := execAllOk }

/-! ## Helper lemmas -/

/-- Filtering-and-mapping through a boolean guard is filtering followed
by mapping. -/
theorem filterMap_guard_eq {α β : Type} (q : α → Bool) (h : α → β) :
    ∀ l : List α,
      (l.filterMap fun a => if q a then some (h a) else none)
        = (l.filter q).map h := by
  intro l
  induction l with
  | nil => rfl
  | cons a rest ih =>
    rw [List.filterMap_cons, List.filter_cons]
    cases hq : q a <;> simp [hq, ih]

/-- Splitting a whitespace-only character list yields no tokens. -/
theorem splitWSAux_all_whitespace :
    ∀ l : List Char, (∀ c ∈ l, c.isWhitespace = true) → splitWSAux l [] = [] := by
  intro l
  induction l with
  | nil => intro _; rfl
  | cons c cs ih =>
    intro h
    have hc := h c (List.mem_cons_self c cs)
    simp only [splitWSAux, hc, if_true, List.isEmpty_nil]
    exact ih fun x hx => h x (List.mem_cons_of_mem _ hx)

/-- A command sequence containing a line that splits to no tokens always
panics (either at that line's `split_first().unwrap()`, or earlier). -/
theorem runSeq_panicked_of_empty_line (exec : Exec) :
    ∀ (lines : List String) (l : String), l ∈ lines → splitWhitespace l = [] →
      (runSeq exec lines).outcome = .panicked := by
  intro lines
  induction lines with
  | nil => intro l hl; cases hl
  | cons a rest ih =>
    intro l hl hsplit
    rcases List.mem_cons.mp hl with rfl | hmem
    · simp [runSeq, hsplit]
    · rcases ha : splitWhitespace a with _ | ⟨cmd, args⟩
      · simp [runSeq, ha]
      · rcases he : exec cmd.asString (args.map List.asString) with _ | code
        · simp [runSeq, ha, he]
        · simp only [runSeq, ha, he]
          exact ih l hmem hsplit

/-- Every path in a pull-phase result comes from one of the processed
repository entries. -/
theorem pullPhase_mem (exec : Exec) (expand : String → String) :
    ∀ (entries : List RepoEntry) (pend blt : List String),
      pullPhase exec expand entries = some (pend, blt) →
      (∀ x ∈ pend, x ∈ entries.map RepoEntry.path) ∧
      (∀ x ∈ blt, x ∈ entries.map RepoEntry.path) := by
  intro entries
  induction entries with
  | nil =>
    intro pend blt h
    simp only [pullPhase, Option.some.injEq, Prod.mk.injEq] at h
    obtain ⟨h1, h2⟩ := h
    subst h1; subst h2
    exact ⟨fun x hx => absurd hx (List.not_mem_nil x),
           fun x hx => absurd hx (List.not_mem_nil x)⟩
  | cons e rest ih =>
    intro pend blt h
    simp only [pullPhase] at h
    rcases hcfg : tryFromRepo expand e.path e.file with _ | cfg
    · simp only [hcfg] at h
      obtain ⟨h1, h2⟩ := ih pend blt h
      exact ⟨fun x hx => List.mem_cons_of_mem _ (h1 x hx),
             fun x hx => List.mem_cons_of_mem _ (h2 x hx)⟩
    · simp only [hcfg] at h
      rcases hp : pull exec cfg e.stdout e.exitSuccess with _ | nb
      · rw [hp] at h
        exact Option.noConfusion h
      · obtain ⟨needs, built⟩ := nb
        rw [hp] at h
        rcases hrest : pullPhase exec expand rest with _ | pb
        · rw [hrest] at h
          exact Option.noConfusion h
        · obtain ⟨p, b⟩ := pb
          rw [hrest] at h
          simp only [Option.map_some, Option.some.injEq, Prod.mk.injEq] at h
          obtain ⟨rfl, rfl⟩ := h
          obtain ⟨hp1, hp2⟩ := ih p b hrest
          constructor
          · intro x hx
            by_cases hn : needs = true
            · rw [if_pos hn] at hx
              rcases List.mem_cons.mp hx with rfl | hx'
              · exact List.mem_cons_self _ _
              · exact List.mem_cons_of_mem _ (hp1 x hx')
            · rw [if_neg hn] at hx
              exact List.mem_cons_of_mem _ (hp1 x hx)
          · intro x hx
            by_cases hb : built = true
            · rw [if_pos hb] at hx
              rcases List.mem_cons.mp hx with rfl | hx'
              · exact List.mem_cons_self _ _
              · exact List.mem_cons_of_mem _ (hp2 x hx')
            · rw [if_neg hb] at hx
              exact List.mem_cons_of_mem _ (hp2 x hx)

/-! ## Claim theorems -/

/-- C5: for a repository with no per-repository configuration file,
resolution succeeds (it is `some`, not an error) and yields an empty
build list, an empty clean list, `autoclean = false`,
`autoupdate = false`, and `name` equal to the repository's path
string. -/
theorem missing_repo_config_defaults (expand : String → String) (p : String) :
    tryFromRepo expand p none
      = some { name := p, path := p, build := [], clean := [],
               autoclean := false, autoupdate := false } := rfl

/-- C7: a per-repository configuration file that is present but fails to
parse makes `try_from_repo` yield no build plan (`none`) after reporting
the parse error; in each of the three phases the repository is skipped
with a `continue` while the remaining repositories are processed
unchanged — the run does not crash. -/
theorem parse_failure_skips_repo (expand : String → String) (exec : Exec)
    (p msg : String) (stdout : List Char) (succ : Bool)
    (rest : List RepoEntry) (others : List (String × RepoFile))
    (act : BuildConfig → Trace) :
    tryFromRepoLogged expand p (some (.error msg))
        = (none, [.foundConfig (p ++ "rema.toml"), .parseError msg])
  ∧ pullPhase exec expand (⟨p, some (.error msg), stdout, succ⟩ :: rest)
        = pullPhase exec expand rest
  ∧ runPhase expand act ((p, some (.error msg)) :: others)
        = runPhase expand act others :=
  ⟨rfl, rfl, rfl⟩

/-- C3 (divergence witness): with two configured build lines and
`autoclean = true`, in an environment where the first build command
spawns and exits with status 1, the build loop still invokes the second
build line and then the clean line: the exit status handed back by
`wait()` is never inspected, so a non-zero exit does not abort the
remaining commands. -/
theorem build_continues_after_nonzero_exit :
    execD "false" [] = .exited 1
  ∧ buildRun execD cfgD = ⟨["false", "touch second", "rm out"], .ok⟩ :=
  ⟨rfl, by decide⟩

/-- C4 (counterexample): the global configuration's `[repo.<key>]`
tables — the only include-like set in the code — do not restrict
discovery: with the sole table keyed `a` and two children `a` and `b`
that both open as repositories, discovery yields both, including `b`
which is not in the include set. -/
theorem discover_no_include_cex :
    seC4.repos.map Prod.fst = ["a"]
  ∧ discover (toRemaConfig id seC4) entriesC4 = ["a", "b"]
  ∧ ("b" : String) ∉ seC4.repos.map Prod.fst := by
  refine ⟨rfl, rfl, ?_⟩
  decide

/-- C4 (amended): discovery applies no include filter — its output is
unchanged under an arbitrary replacement of the `[repo.<key>]` tables —
and yields exactly the readable immediate directory children that are
not regular files, open as repositories, and are not in the ignore
set. -/
theorem discover_children_minus_ignore (expand : String → String)
    (se : RemaConfigSe) (repos' : List (String × Repo))
    (entries : List DirEntry) :
    discover (toRemaConfig expand se) entries
      = discover (toRemaConfig expand
          ⟨se.base_dir, se.ignore, se.autoclean, se.autoupdate, repos'⟩) entries
  ∧ discover (toRemaConfig expand se) entries
      = (entries.filter fun e => e.readOk && !e.isFile &&
          !((toRemaConfig expand se).ignore.contains e.name) &&
          e.opensAsRepo).map DirEntry.name := by
  refine ⟨rfl, ?_⟩
  have hfun : ∀ e : DirEntry,
      (if !e.readOk then none
       else if e.isFile || (toRemaConfig expand se).ignore.contains e.name then none
       else if e.opensAsRepo then some e.name else none)
      = if (e.readOk && !e.isFile &&
            !((toRemaConfig expand se).ignore.contains e.name) &&
            e.opensAsRepo) then some e.name else none := by
    intro e
    cases hr : e.readOk <;> cases hf : e.isFile <;>
      cases hi : (toRemaConfig expand se).ignore.contains e.name <;>
      cases ho : e.opensAsRepo <;> simp [hr, hf, hi, ho]
  rw [discover, List.filterMap_congr fun a _ => hfun a,
    filterMap_guard_eq]

/-- C6 (counterexample): a per-repository file omitting the `name` key,
and one omitting the `build` key, each fail to deserialize rather than
parsing with defaults. -/
theorem repo_config_missing_required_cex :
    deserializeBuildConfigSe ⟨none, some ["make"], none, none, none⟩
        = .error "missing field name"
  ∧ deserializeBuildConfigSe ⟨some "x", none, none, none, none⟩
        = .error "missing field build" :=
  ⟨rfl, rfl⟩

/-- C6 (amended): in the per-repository configuration file, `name` and
`build` are required keys — omitting either is a deserialization
error — while `clean`, `autoclean` and `autoupdate` are optional and
default to the empty sequence and false when absent. -/
theorem repo_config_required_and_optional_keys (f : RepoFileKeys)
    (expand : String → String) (p : String) :
    ((f.name = none ∨ f.build = none) →
        ∃ e, deserializeBuildConfigSe f = .error e)
  ∧ (∀ n b, f.name = some n → f.build = some b →
        deserializeBuildConfigSe f = .ok ⟨n, b, f.clean, f.autoclean, f.autoupdate⟩
      ∧ buildConfigOfSe expand ⟨n, b, f.clean, f.autoclean, f.autoupdate⟩ p
          = { name := n, path := p, build := b.map expand,
              clean := (f.clean.getD []).map expand,
              autoclean := f.autoclean.getD false,
              autoupdate := f.autoupdate.getD false }) := by
  obtain ⟨fn, fb, fc, fa, fu⟩ := f
  constructor
  · intro h
    rcases h with hn | hb
    · simp only at hn
      subst hn
      exact ⟨"missing field name", rfl⟩
    · simp only at hb
      subst hb
      cases fn with
      | none => exact ⟨"missing field name", rfl⟩
      | some n => exact ⟨"missing field build", rfl⟩
  · intro n b hn hb
    simp only at hn hb
    subst hn
    subst hb
    exact ⟨rfl, rfl⟩

/-- C6 witness: applying the amended theorem at a file with `name` and
`build` absent, and at one providing both and omitting the optional
keys. -/
theorem repo_config_required_and_optional_keys_witness :
    (∃ e, deserializeBuildConfigSe ⟨none, none, none, none, none⟩ = .error e)
  ∧ (deserializeBuildConfigSe fileKeysOk
        = .ok ⟨"proj", ["make"], fileKeysOk.clean, fileKeysOk.autoclean,
               fileKeysOk.autoupdate⟩
    ∧ buildConfigOfSe id ⟨"proj", ["make"], fileKeysOk.clean,
          fileKeysOk.autoclean, fileKeysOk.autoupdate⟩ "/r"
        = { name := "proj", path := "/r", build := ["make"].map id,
            clean := (fileKeysOk.clean.getD []).map id,
            autoclean := fileKeysOk.autoclean.getD false,
            autoupdate := fileKeysOk.autoupdate.getD false }) :=
  ⟨(repo_config_required_and_optional_keys ⟨none, none, none, none, none⟩ id "/r").1
      (Or.inl rfl),
   (repo_config_required_and_optional_keys fileKeysOk id "/r").2
      "proj" ["make"] rfl rfl⟩

/-- C1 (counterexample): with `autoupdate = true`, a pull whose captured
output (of exactly the marker's length) does not begin with the
"Already up to date." marker and whose process exits successfully is
still classified `false` ("up-to-date", first component), not "has new
content" — the classification does not hold for every value of the
autoupdate flag. -/
theorem pull_autoupdate_ignores_new_content :
    stdoutX.take checkPhrase.length ≠ checkPhrase
  ∧ cfgAU.autoupdate = true
  ∧ pull execAllOk cfgAU stdoutX true = some (false, true) := by
  refine ⟨by decide, rfl, by decide⟩

/-- C1 (amended): when the output is at least as long as the marker, the
stated classification holds for `autoupdate = false`: an output
beginning exactly with the marker is classified up-to-date regardless of
exit status, and an output not beginning with it together with a
successful exit is classified as having new content.  With
`autoupdate = true`, `pull` invokes `build` and always reports
up-to-date (`false`) regardless of output and exit status. -/
theorem pull_classification_amended (exec : Exec) (cfg : BuildConfig)
    (stdout : List Char) (succ : Bool)
    (hlen : checkPhrase.length ≤ stdout.length) :
    (cfg.autoupdate = false → stdout.take checkPhrase.length = checkPhrase →
        pull exec cfg stdout succ = some (false, false))
  ∧ (cfg.autoupdate = false → stdout.take checkPhrase.length ≠ checkPhrase →
        succ = true → pull exec cfg stdout succ = some (true, false))
  ∧ (cfg.autoupdate = true → (buildRun exec cfg).outcome = .ok →
        pull exec cfg stdout succ = some (false, true)) := by
  have hnlt := Nat.not_lt.mpr hlen
  refine ⟨?_, ?_, ?_⟩
  · intro hau heq
    simp [pull, hnlt, hau, heq]
  · intro hau hne hsucc
    have hbeq : (stdout.take checkPhrase.length == checkPhrase) = false := by
      cases hb : stdout.take checkPhrase.length == checkPhrase with
      | false => rfl
      | true => exact absurd (eq_of_beq hb) hne
    simp [pull, hnlt, hau, hsucc, hbeq]
  · intro hau hok
    simp [pull, hnlt, hau, hok]

/-- C1 amended witness: the marker output with a failing exit is
classified up-to-date; a non-marker output with a successful exit is
classified as having new content; with autoupdate the same non-marker
successful pull is classified up-to-date with the build invoked. -/
theorem pull_classification_amended_witness :
    pull execAllOk cfgNoAU checkPhrase false = some (false, false)
  ∧ pull execAllOk cfgNoAU stdoutX true = some (true, false)
  ∧ pull execAllOk cfgAU stdoutX true = some (false, true) :=
  ⟨(pull_classification_amended execAllOk cfgNoAU checkPhrase false
      (by decide)).1 rfl rfl,
   (pull_classification_amended execAllOk cfgNoAU stdoutX true
      (by decide)).2.1 rfl (by decide) rfl,
   (pull_classification_amended execAllOk cfgAU stdoutX true
      (by decide)).2.2 rfl rfl⟩

/-- C9: a pull whose captured output is shorter than the fixed marker
(for example, empty) hits the out-of-bounds slice
`output.stdout[..check_phrase.len()]` and panics (`none`) instead of
returning a classification, for every autoupdate value and exit status;
when the output is at least as long as the marker (and `autoupdate` is
false, so that no build runs inside the pull) a classification is
returned. -/
theorem pull_short_output_panics (exec : Exec) (cfg : BuildConfig)
    (stdout : List Char) (succ : Bool) :
    (stdout.length < checkPhrase.length → pull exec cfg stdout succ = none)
  ∧ (checkPhrase.length ≤ stdout.length → cfg.autoupdate = false →
      ∃ b, pull exec cfg stdout succ = some (b, false)) := by
  constructor
  · intro h
    simp [pull, h]
  · intro h hau
    refine ⟨succ && !(stdout.take checkPhrase.length == checkPhrase), ?_⟩
    simp [pull, Nat.not_lt.mpr h, hau]

/-- C9 witness: the empty output panics; a 19-character output yields a
classification. -/
theorem pull_short_output_panics_witness :
    pull execAllOk cfgNoAU [] true = none
  ∧ ∃ b, pull execAllOk cfgNoAU stdoutX true = some (b, false) :=
  ⟨(pull_short_output_panics execAllOk cfgNoAU [] true).1 (by decide),
   (pull_short_output_panics execAllOk cfgNoAU stdoutX true).2 (by decide) rfl⟩

/-- C10: a build or clean sequence containing a command line that is
empty or whitespace-only panics when executed (the whitespace split
yields no program name for `split_first().unwrap()`), and a sequence
that completes without a panic had a non-whitespace token in every one
of its command lines. -/
theorem empty_command_line_panics (exec : Exec) (cfg : BuildConfig)
    (line : String) (hws : ∀ c ∈ line.data, c.isWhitespace = true) :
    (line ∈ cfg.build → (buildRun exec cfg).outcome = .panicked)
  ∧ (line ∈ cfg.clean → (cleanRun exec cfg).outcome = .panicked)
  ∧ ((buildRun exec cfg).outcome = .ok →
      ∀ l ∈ cfg.build, splitWhitespace l ≠ [])
  ∧ ((cleanRun exec cfg).outcome = .ok →
      ∀ l ∈ cfg.clean, splitWhitespace l ≠ []) := by
  have hsplit : splitWhitespace line = [] :=
    splitWSAux_all_whitespace line.data hws
  refine ⟨?_, ?_, ?_, ?_⟩
  · intro hmem
    have hp := runSeq_panicked_of_empty_line exec cfg.build line hmem hsplit
    simp only [buildRun]
    rw [hp]
    exact hp
  · intro hmem
    exact runSeq_panicked_of_empty_line exec cfg.clean line hmem hsplit
  · intro hok l hmem hsp
    have hp := runSeq_panicked_of_empty_line exec cfg.build l hmem hsp
    have hok2 : (runSeq exec cfg.build).outcome = ExecOutcome.ok := by
      simp only [buildRun] at hok
      rw [hp] at hok
      exact hok
    rw [hp] at hok2
    exact ExecOutcome.noConfusion hok2
  · intro hok l hmem hsp
    have hp := runSeq_panicked_of_empty_line exec cfg.clean l hmem hsp
    rw [cleanRun, hp] at hok
    exact ExecOutcome.noConfusion hok

/-- C10 witness: a build list holding the line of two spaces and a clean
list holding one space each panic. -/
theorem empty_command_line_panics_witness :
    (buildRun execAllOk cfgWS).outcome = .panicked
  ∧ (cleanRun execAllOk cfgWS).outcome = .panicked := by
  have h1 := empty_command_line_panics execAllOk cfgWS "  " (by decide)
  have h2 := empty_command_line_panics execAllOk cfgWS " " (by decide)
  exact ⟨h1.1 (List.mem_cons_self _ _), h2.2.1 (List.mem_cons_self _ _)⟩

/-- C2: over a pull phase with distinct repository paths that completes
(serializes `some` result), a repository whose resolved config has
`autoupdate = true` and whose pull fetched new content (successful exit
and output not beginning with the marker) is absent from the serialized
PendingSet and present among the repositories whose build sequence ran
during the phase; one with `autoupdate = false` and new content has its
path in the PendingSet. -/
theorem autoupdate_cascade (exec : Exec) (expand : String → String)
    (entries : List RepoEntry)
    (hnd : (entries.map RepoEntry.path).Nodup)
    (e : RepoEntry) (he : e ∈ entries) (cfg : BuildConfig)
    (hcfg : tryFromRepo expand e.path e.file = some cfg)
    (hlen : checkPhrase.length ≤ e.stdout.length)
    (hsucc : e.exitSuccess = true)
    (hnew : e.stdout.take checkPhrase.length ≠ checkPhrase)
    (pend blt : List String)
    (hrun : pullPhase exec expand entries = some (pend, blt)) :
    (cfg.autoupdate = true → e.path ∉ pend ∧ e.path ∈ blt)
  ∧ (cfg.autoupdate = false → e.path ∈ pend) := by
  induction entries generalizing pend blt with
  | nil => cases he
  | cons a rest ih =>
    have hapath : a.path ∉ rest.map RepoEntry.path := by
      have := hnd
      rw [List.map_cons, List.nodup_cons] at this
      exact this.1
    have hndrest : (rest.map RepoEntry.path).Nodup := by
      have := hnd
      rw [List.map_cons, List.nodup_cons] at this
      exact this.2
    simp only [pullPhase] at hrun
    rcases List.mem_cons.mp he with rfl | hmem
    · rw [hcfg] at hrun
      simp only at hrun
      have hbeq : (e.stdout.take checkPhrase.length == checkPhrase) = false := by
        cases hb : e.stdout.take checkPhrase.length == checkPhrase with
        | false => rfl
        | true => exact absurd (eq_of_beq hb) hnew
      cases hau : cfg.autoupdate with
      | true =>
        have hpull : pull exec cfg e.stdout e.exitSuccess
            = if (buildRun exec cfg).outcome = .panicked then none
              else some (false, true) := by
          simp [pull, Nat.not_lt.mpr hlen, hau]
        rw [hpull] at hrun
        rcases hb : (buildRun exec cfg).outcome with _ | _
        · rw [if_neg (by simp [hb])] at hrun
          rcases hrest : pullPhase exec expand rest with _ | pb
          · rw [hrest] at hrun
            exact Option.noConfusion hrun
          · obtain ⟨p, b⟩ := pb
            rw [hrest] at hrun
            simp only [Option.map_some, Option.some.injEq, Prod.mk.injEq] at hrun
            obtain ⟨rfl, rfl⟩ := hrun
            refine ⟨fun _ => ⟨?_, ?_⟩, fun hf => Bool.noConfusion hf⟩
            · rw [if_neg (show ¬(false = true) by decide)]
              intro hin
              exact hapath ((pullPhase_mem exec expand rest p b hrest).1 e.path hin)
            · simp only [if_pos rfl]
              exact List.mem_cons_self _ _
        · rw [if_pos (by rw [hb])] at hrun
          exact Option.noConfusion hrun
      | false =>
        have hpull : pull exec cfg e.stdout e.exitSuccess = some (true, false) := by
          simp [pull, Nat.not_lt.mpr hlen, hau, hsucc, hbeq]
        rw [hpull] at hrun
        rcases hrest : pullPhase exec expand rest with _ | pb
        · rw [hrest] at hrun
          exact Option.noConfusion hrun
        · obtain ⟨p, b⟩ := pb
          rw [hrest] at hrun
          simp only [Option.map_some, Option.some.injEq, Prod.mk.injEq] at hrun
          obtain ⟨rfl, rfl⟩ := hrun
          refine ⟨fun ht => Bool.noConfusion ht, fun _ => ?_⟩
          simp only [if_pos rfl]
          exact List.mem_cons_self _ _
    · have hepath : e.path ∈ rest.map RepoEntry.path :=
        List.mem_map_of_mem RepoEntry.path hmem
      have hne : e.path ≠ a.path := fun h => hapath (h ▸ hepath)
      rcases hacfg : tryFromRepo expand a.path a.file with _ | acfg
      · rw [hacfg] at hrun
        simp only at hrun
        exact ih hndrest hmem pend blt hrun
      · rw [hacfg] at hrun
        simp only at hrun
        rcases hap : pull exec acfg a.stdout a.exitSuccess with _ | nb
        · rw [hap] at hrun
          exact Option.noConfusion hrun
        · obtain ⟨needs, built⟩ := nb
          rw [hap] at hrun
          rcases hrest : pullPhase exec expand rest with _ | pb
          · rw [hrest] at hrun
            exact Option.noConfusion hrun
          · obtain ⟨p, b⟩ := pb
            rw [hrest] at hrun
            simp only [Option.map_some, Option.some.injEq, Prod.mk.injEq] at hrun
            obtain ⟨rfl, rfl⟩ := hrun
            obtain ⟨ihT, ihF⟩ := ih hndrest hmem p b hrest
            constructor
            · intro hau
              obtain ⟨hnotp, hinb⟩ := ihT hau
              constructor
              · by_cases hn : needs = true
                · rw [if_pos hn]
                  intro hin
                  rcases List.mem_cons.mp hin with heq | hin'
                  · exact hne heq
                  · exact hnotp hin'
                · rw [if_neg hn]
                  exact hnotp
              · by_cases hbt : built = true
                · rw [if_pos hbt]
                  exact List.mem_cons_of_mem _ hinb
                · rw [if_neg hbt]
                  exact hinb
            · intro hau
              have hinp := ihF hau
              by_cases hn : needs = true
              · rw [if_pos hn]
                exact List.mem_cons_of_mem _ hinp
              · rw [if_neg hn]
                exact hinp

/-- C2 witness: a two-repository phase — `a` with `autoupdate = true`
via its `rema.toml` and `b` with no `rema.toml` (`autoupdate = false`),
both pulling new content — serializes PendingSet `[b]` and builds `a`
during the phase. -/
theorem autoupdate_cascade_witness :
    (("a" : String) ∉ (["b"] : List String)
      ∧ ("a" : String) ∈ (["a"] : List String))
  ∧ ("b" : String) ∈ (["b"] : List String) := by
  have hT := autoupdate_cascade execAllOk id [eTrue, eFalse] (by decide)
    eTrue (List.mem_cons_self _ _) (buildConfigOfSe id seA "a") rfl
    (by decide) rfl (by decide) ["b"] ["a"] (by decide)
  have hF := autoupdate_cascade execAllOk id [eTrue, eFalse] (by decide)
    eFalse (List.mem_cons_of_mem _ (List.mem_cons_self _ _))
    (BuildConfig.new "b") rfl (by decide) rfl (by decide) ["b"] ["a"]
    (by decide)
  exact ⟨hT.1 rfl, hF.2 rfl⟩

/-- C8: if the global config file cannot be read, or fails to parse, or
the configured base directory is relative or not an existing directory,
then `main` aborts with a fatal configuration error for every
subcommand, and the outcome is the same for every state of the
repository world — no repository is discovered or processed; otherwise
`RemaConfig::new` produces the validated configuration value. -/
theorem startup_validation_fatal (w : World) (cmd : Subcommand) :
    ((w.readResult = none
      ∨ (∃ buf e, w.readResult = some buf ∧ w.parse buf = .error e)
      ∨ (∃ buf rcs, w.readResult = some buf ∧ w.parse buf = .ok rcs ∧
          (w.isRelative (toRemaConfig w.expand rcs).base_dir = true
           ∨ w.isDir (toRemaConfig w.expand rcs).base_dir = false))) →
      ∃ err, ∀ entries' repoFile' gitStdout' gitSuccess' pending' opens' exec',
        mainRun ⟨w.readResult, w.parse, w.expand, w.isRelative, w.isDir,
          entries', repoFile', gitStdout', gitSuccess', pending', opens',
          exec'⟩ cmd = .fatal err)
  ∧ (∀ buf rcs, w.readResult = some buf → w.parse buf = .ok rcs →
      w.isRelative (toRemaConfig w.expand rcs).base_dir = false →
      w.isDir (toRemaConfig w.expand rcs).base_dir = true →
      remaConfigNew w.expand w.isRelative w.isDir w.parse w.readResult
        = .ok (toRemaConfig w.expand rcs)) := by
  constructor
  · intro h
    have herr : ∃ err, remaConfigNew w.expand w.isRelative w.isDir w.parse
        w.readResult = .error err := by
      rcases h with h | ⟨buf, e, hb, hp⟩ | ⟨buf, rcs, hb, hp, hbad⟩
      · exact ⟨.file, by simp [remaConfigNew, h]⟩
      · exact ⟨.toml, by simp [remaConfigNew, hb, hp]⟩
      · rcases hbad with hrel | hdir
        · exact ⟨.baseDirRelative (toRemaConfig w.expand rcs).base_dir,
            by simp [remaConfigNew, hb, hp, hrel]⟩
        · cases hrel : w.isRelative (toRemaConfig w.expand rcs).base_dir with
          | true => exact ⟨.baseDirRelative (toRemaConfig w.expand rcs).base_dir,
              by simp [remaConfigNew, hb, hp, hrel]⟩
          | false => exact ⟨.baseDirNotDir (toRemaConfig w.expand rcs).base_dir,
              by simp [remaConfigNew, hb, hp, hrel, hdir]⟩
    obtain ⟨err, herr⟩ := herr
    refine ⟨err, ?_⟩
    intro entries' repoFile' gitStdout' gitSuccess' pending' opens' exec'
    simp only [mainRun, herr]
  · intro buf rcs hb hp hrel hdir
    simp [remaConfigNew, hb, hp, hrel, hdir]

/-- C8 witness: a world with an unreadable config file is fatal on the
`pull` subcommand; a world that reads, parses and validates yields the
converted configuration. -/
theorem startup_validation_fatal_witness :
    (∃ err, ∀ entries' repoFile' gitStdout' gitSuccess' pending' opens' exec',
      mainRun ⟨worldBad.readResult, worldBad.parse, worldBad.expand,
        worldBad.isRelative, worldBad.isDir, entries', repoFile', gitStdout',
        gitSuccess', pending', opens', exec'⟩ Subcommand.pull = .fatal err)
  ∧ remaConfigNew worldGood.expand worldGood.isRelative worldGood.isDir
      worldGood.parse worldGood.readResult
      = .ok (toRemaConfig worldGood.expand seGood) :=
  ⟨(startup_validation_fatal worldBad Subcommand.pull).1 (Or.inl rfl),
   (startup_validation_fatal worldGood Subcommand.pull).2 "" seGood rfl rfl
     rfl rfl⟩

end Rema
